import Mathlib

/-!
Shallow embedding of the `cdi-wasm` browser library
(`src/browser/cdi-wasm/src/{wallet,signing,tokenomics}.rs`).

Conventions of the embedding:
* Byte strings are `List ℕ` with every element `< 256`.
* Rust `f64` quantities are embedded as the exact rationals they denote.
  Where a claim's truth depends on floating-point rounding, the rounding
  is modelled bit-exactly (`f64Round` is IEEE-754 binary64
  round-to-nearest-ties-to-even); where the source uses the platform's
  float formatting, the embedding is parameterised over an abstract
  rendering function.
* The third-party cryptographic primitives (Ed25519, SHA-256) are out of
  scope of the repository (vendored dependencies); they are abstracted as
  a structure `CryptoPrims` carrying exactly the contracts the library
  relies on.  `serde_json`'s string-level parser/printer is likewise
  abstracted as a structure `JsonCodec` over a structural document type,
  with the round-trip law serde guarantees; the per-struct field decoding
  that `#[derive(Deserialize)]` generates is modelled concretely.
* Rust functions that can panic are modelled with `Option` result types,
  `none` marking a panic; functions returning `Result` become `Except`.
-/

/-! ### Hex codec (the `hex` crate: lowercase encoding, strict decoding) -/

/-- Lowercase hex digit for a nibble `n < 16`, as `hex::encode` emits. -/
def hexDigitChar (n : ℕ) : Char :=
  if n < 10 then Char.ofNat (48 + n) else Char.ofNat (97 + n - 10)

/-- `hex::encode`: each byte becomes high nibble then low nibble. -/
def hexChars : List ℕ → List Char
  | [] => []
  | b :: rest => hexDigitChar (b / 16) :: hexDigitChar (b % 16) :: hexChars rest

/-- `hex::encode` of a byte string. -/
def hexEncode (bs : List ℕ) : String :=
  String.mk (hexChars bs)

/-- Value of one hex digit; `hex::decode` accepts both cases. -/
def hexDigitVal (c : Char) : Option ℕ :=
  if 48 ≤ c.toNat ∧ c.toNat ≤ 57 then some (c.toNat - 48)
  else if 97 ≤ c.toNat ∧ c.toNat ≤ 102 then some (c.toNat - 97 + 10)
  else if 65 ≤ c.toNat ∧ c.toNat ≤ 70 then some (c.toNat - 65 + 10)
  else none

/-- `hex::decode` over the character list: fails on odd length or a
non-hex character, otherwise yields the byte string. -/
def hexDecodeChars : List Char → Option (List ℕ)
  | [] => some []
  | [_] => none
  | c₁ :: c₂ :: rest =>
    match hexDigitVal c₁, hexDigitVal c₂, hexDecodeChars rest with
    | some h, some l, some tail => some ((16 * h + l) :: tail)
    | _, _, _ => none

/-- `hex::decode` of a string. -/
def hexDecode (s : String) : Option (List ℕ) :=
  hexDecodeChars s.data

theorem hexDigitVal_hexDigitChar {n : ℕ} (h : n < 16) :
    hexDigitVal (hexDigitChar n) = some n := by
  interval_cases n <;> decide

theorem hexDecodeChars_hexChars (bs : List ℕ) (h : ∀ b ∈ bs, b < 256) :
    hexDecodeChars (hexChars bs) = some bs := by
  induction bs with
  | nil => rfl
  | cons b rest ih =>
    have hb : b < 256 := h b (List.mem_cons_self b rest)
    have hhi : b / 16 < 16 := Nat.div_lt_of_lt_mul hb
    have hlo : b % 16 < 16 := Nat.mod_lt _ (by norm_num)
    have htail : hexDecodeChars (hexChars rest) = some rest :=
      ih (fun x hx => h x (List.mem_cons_of_mem _ hx))
    simp only [hexChars, hexDecodeChars, hexDigitVal_hexDigitChar hhi,
      hexDigitVal_hexDigitChar hlo, htail]
    rw [Nat.div_add_mod]

/-- Decoding inverts encoding on genuine byte strings. -/
theorem hexDecode_hexEncode (bs : List ℕ) (h : ∀ b ∈ bs, b < 256) :
    hexDecode (hexEncode bs) = some bs :=
  hexDecodeChars_hexChars bs h

theorem hexChars_length (bs : List ℕ) : (hexChars bs).length = 2 * bs.length := by
  induction bs with
  | nil => rfl
  | cons b rest ih => simp [hexChars, ih]; ring

/-! ### Abstract cryptographic primitives (vendored `ed25519-dalek`, `sha2`)

The repository treats Ed25519 and SHA-256 as black boxes; the structure
below records exactly the properties of those boxes that the library's
code relies on, and nothing about their internals. -/

structure CryptoPrims where
  /-- `Sha256::digest`: 32 output bytes. -/
  sha256 : List ℕ → List ℕ
  sha256_length : ∀ b, (sha256 b).length = 32
  sha256_lt : ∀ b, ∀ x ∈ sha256 b, x < 256
  /-- `SigningKey::verifying_key().as_bytes()`: the 32-byte public key of a
  32-byte private key (`SigningKey::from_bytes` is infallible). -/
  pubkeyOf : List ℕ → List ℕ
  pubkeyOf_length : ∀ sk, (pubkeyOf sk).length = 32
  pubkeyOf_lt : ∀ sk, ∀ x ∈ pubkeyOf sk, x < 256
  /-- `SigningKey::sign(...).to_bytes()`: a 64-byte Ed25519 signature. -/
  sign : List ℕ → List ℕ → List ℕ
  sign_length : ∀ sk data, (sign sk data).length = 64
  sign_lt : ∀ sk data, ∀ x ∈ sign sk data, x < 256
  /-- Whether `VerifyingKey::from_bytes` succeeds on 32 given bytes. -/
  pkValid : List ℕ → Bool
  pkValid_pubkeyOf : ∀ sk, pkValid (pubkeyOf sk) = true
  /-- `VerifyingKey::verify(data, sig).is_ok()`. -/
  verify : List ℕ → List ℕ → List ℕ → Bool
  verify_sign : ∀ sk data, verify (pubkeyOf sk) data (sign sk data) = true

/-! ### Structural JSON documents and the abstract `serde_json` codec

The two struct types deserialized in this library (`WalletData`,
`SignedTransaction`) only ever read string- or number-typed fields of a
top-level JSON object, so a document is modelled as a flat field list
whose values are strings, numbers, or anything else (`other`), plus a
catch-all for non-object JSON.  The string-level parser/printer is
abstract; `parse_render` is the round-trip guarantee of `serde_json`
(including its lossless `f64` rendering). -/

inductive JVal where
  | str : String → JVal
  | num : ℚ → JVal
  | other : JVal
deriving DecidableEq

inductive JDoc where
  | obj : List (String × JVal) → JDoc
  | nonObj : JDoc
deriving DecidableEq

structure JsonCodec where
  parse : String → Option JDoc
  render : JDoc → String
  parse_render : ∀ d, parse (render d) = some d

/-- First binding of a field name in an object's field list. -/
def jlookup : List (String × JVal) → String → Option JVal
  | [], _ => none
  | (k, v) :: rest, key => if k = key then some v else jlookup rest key

/-- Decode a JSON value as a Rust `String` field. -/
def asStr : JVal → Option String
  | .str s => some s
  | _ => none

/-- Decode a JSON value as a Rust `f64` field. -/
def asNum : JVal → Option ℚ
  | .num q => some q
  | _ => none

/-! ### `wallet.rs` -/

/-- `WalletData`: serializable wallet document. -/
structure WalletData where
  public_key : String
  private_key : String
  peer_id : String
deriving DecidableEq

/-- `CdiWallet`: Ed25519 keypair plus cached peer id. -/
structure CdiWallet where
  signing_key : List ℕ
  verifying_key : List ℕ
  peer_id : String
deriving DecidableEq

/-- Field decoding of `WalletData` as `#[derive(Deserialize)]` produces it:
all three fields must be present with string type; unknown fields are
ignored. -/
def decodeWalletData : JDoc → Option WalletData
  | .obj fs =>
    match (jlookup fs "public_key").bind asStr,
          (jlookup fs "private_key").bind asStr,
          (jlookup fs "peer_id").bind asStr with
    | some pk, some sk, some pid => some ⟨pk, sk, pid⟩
    | _, _, _ => none
  | .nonObj => none

/-- `serde_json::from_str::<WalletData>`. -/
def parseWalletData (J : JsonCodec) (s : String) : Option WalletData :=
  (J.parse s).bind decodeWalletData

/-- `CdiWallet::derive_peer_id`: hex(SHA-256(raw 32-byte public key)). -/
def derive_peer_id (C : CryptoPrims) (vk : List ℕ) : String :=
  hexEncode (C.sha256 vk)

/-- `CdiWallet::get_public_key_hex`. -/
def get_public_key_hex (w : CdiWallet) : String :=
  hexEncode w.verifying_key

/-- `CdiWallet::get_peer_id`. -/
def get_peer_id (w : CdiWallet) : String :=
  w.peer_id

/-- `CdiWallet::sign_data`: hex-encoded Ed25519 signature. -/
def sign_data (C : CryptoPrims) (w : CdiWallet) (data : List ℕ) : String :=
  hexEncode (C.sign w.signing_key data)

/-- Models `<&[u8] as TryInto<[u8; 32]>>::try_into`. -/
def array32 (bs : List ℕ) : Option (List ℕ) :=
  if bs.length = 32 then some bs else none

/-- `CdiWallet::verify_with_public_key`.  The result is `some b` for a
normal boolean return and `none` for a panic: the source's
`.try_into().unwrap()` is kept as a potentially panicking step so that
its unreachability can be proved rather than assumed. -/
def verify_with_public_key (C : CryptoPrims) (public_key_hex : String)
    (data : List ℕ) (signature_hex : String) : Option Bool :=
  match hexDecode public_key_hex with
  | none => some false
  | some pk_bytes =>
    if pk_bytes.length ≠ 32 then some false
    else
      match array32 pk_bytes with
      | none => none
      | some pk =>
        if C.pkValid pk then
          match hexDecode signature_hex with
          | none => some false
          | some sig_bytes =>
            -- `Signature::from_slice` fails exactly on length ≠ 64.
            if sig_bytes.length = 64 then some (C.verify pk data sig_bytes)
            else some false
        else some false

/-- `CdiWallet::from_json_str`.  Error messages keep the source's fixed
prefixes (the serde detail interpolated into the first one is dropped). -/
def from_json_str (C : CryptoPrims) (J : JsonCodec) (json : String) :
    Except String CdiWallet :=
  match parseWalletData J json with
  | none => .error "Invalid wallet JSON"
  | some data =>
    match hexDecode data.private_key with
    | none => .error "Invalid private key hex"
    | some priv_bytes =>
      if priv_bytes.length = 32 then
        let signing_key := priv_bytes
        let verifying_key := C.pubkeyOf signing_key
        let peer_id := derive_peer_id C verifying_key
        .ok ⟨signing_key, verifying_key, peer_id⟩
      else .error "Private key must be 32 bytes"

/-- A wallet as actually constructed by `generate` or `from_json_str`:
its cached fields are derived from its signing key. -/
def WalletWellFormed (C : CryptoPrims) (w : CdiWallet) : Prop :=
  w.verifying_key = C.pubkeyOf w.signing_key ∧
  w.peer_id = derive_peer_id C w.verifying_key

/-! ### `signing.rs` -/

/-- Rust `f64 as u64`: truncation toward zero, saturating at the bounds
(negative values give 0, values at or above `2^64` give `2^64 - 1`). -/
def f64toU64 (q : ℚ) : ℕ :=
  if q < 0 then 0 else min (Int.toNat ⌊q⌋) (2 ^ 64 - 1)

/-- UTF-8-abstracted bytes of a string (`String::into_bytes`); the exact
byte encoding is irrelevant to the claims, only injectivity of
string-to-bytes matters. -/
def strBytes (s : String) : List ℕ :=
  s.data.map Char.toNat

/-- `TransactionData` (the source's `from` and `to` fields are spelled
`from_` and `to_`, both words being reserved in Lean). -/
structure TransactionData where
  from_ : String
  to_ : String
  amount : ℚ
  tx_type : String
  timestamp : ℚ
deriving DecidableEq

/-- `TransactionData::signing_bytes`, parameterised by the platform's
`f64` `Display` rendering `F` used for the amount; the timestamp is cast
to `u64` and rendered in decimal. -/
def signing_bytes (F : ℚ → String) (t : TransactionData) : List ℕ :=
  strBytes (t.from_ ++ ":" ++ t.to_ ++ ":" ++ F t.amount ++ ":" ++ t.tx_type
    ++ ":" ++ Nat.repr (f64toU64 t.timestamp))

/-- `TransactionData::tx_id`: hex(SHA-256(signing bytes)). -/
def tx_id (C : CryptoPrims) (F : ℚ → String) (t : TransactionData) : String :=
  hexEncode (C.sha256 (signing_bytes F t))

/-- `SignedTransaction` envelope. -/
structure SignedTransaction where
  tx_id : String
  from_ : String
  pub_key : String
  to_ : String
  amount : ℚ
  tx_type : String
  timestamp : ℚ
  signature : String
deriving DecidableEq

/-- `serde_json::to_string::<SignedTransaction>` at the document level:
fields in declaration order. -/
def encodeSignedTransaction (st : SignedTransaction) : JDoc :=
  .obj [("tx_id", .str st.tx_id), ("from", .str st.from_),
        ("pub_key", .str st.pub_key), ("to", .str st.to_),
        ("amount", .num st.amount), ("tx_type", .str st.tx_type),
        ("timestamp", .num st.timestamp), ("signature", .str st.signature)]

/-- Field decoding of `SignedTransaction` as derived by serde: all eight
fields required, strings and numbers as typed. -/
def decodeSignedTransaction : JDoc → Option SignedTransaction
  | .obj fs =>
    match (jlookup fs "tx_id").bind asStr, (jlookup fs "from").bind asStr,
          (jlookup fs "pub_key").bind asStr, (jlookup fs "to").bind asStr,
          (jlookup fs "amount").bind asNum, (jlookup fs "tx_type").bind asStr,
          (jlookup fs "timestamp").bind asNum,
          (jlookup fs "signature").bind asStr with
    | some a, some b, some c, some d, some e, some f, some g, some h =>
      some ⟨a, b, c, d, e, f, g, h⟩
    | _, _, _, _, _, _, _, _ => none
  | .nonObj => none

/-- `serde_json::from_str::<SignedTransaction>`. -/
def parseSignedTransaction (J : JsonCodec) (s : String) :
    Option SignedTransaction :=
  (J.parse s).bind decodeSignedTransaction

/-- `sign_transaction_core`. -/
def sign_transaction_core (C : CryptoPrims) (J : JsonCodec) (F : ℚ → String)
    (wallet : CdiWallet) (to_ : String) (amount : ℚ) (tx_type : String)
    (timestamp : ℚ) : String :=
  let tx_data : TransactionData :=
    { from_ := get_peer_id wallet, to_ := to_, amount := amount,
      tx_type := tx_type, timestamp := timestamp }
  let sig := sign_data C wallet (signing_bytes F tx_data)
  let signed : SignedTransaction :=
    { tx_id := tx_id C F tx_data, from_ := tx_data.from_,
      pub_key := get_public_key_hex wallet, to_ := tx_data.to_,
      amount := tx_data.amount, tx_type := tx_data.tx_type,
      timestamp := tx_data.timestamp, signature := sig }
  J.render (encodeSignedTransaction signed)

/-- The `TransactionData` that `verify_transaction_core` rebuilds from an
envelope's own fields. -/
def tx_data_of (st : SignedTransaction) : TransactionData :=
  { from_ := st.from_, to_ := st.to_, amount := st.amount,
    tx_type := st.tx_type, timestamp := st.timestamp }

/-- `verify_transaction_core`; `some b` is a normal boolean return,
`none` a panic propagated from `verify_with_public_key`. -/
def verify_transaction_core (C : CryptoPrims) (J : JsonCodec)
    (F : ℚ → String) (signed_tx_json : String) : Option Bool :=
  match parseSignedTransaction J signed_tx_json with
  | none => some false
  | some signed =>
    match hexDecode signed.pub_key with
    | none => some false
    | some pk_bytes =>
      let expected_peer_id := hexEncode (C.sha256 pk_bytes)
      if expected_peer_id ≠ signed.from_ then some false
      else
        verify_with_public_key C signed.pub_key
          (signing_bytes F (tx_data_of signed)) signed.signature

/-! ### `tokenomics.rs`

`f64` values are embedded as the exact rationals they denote, and the
`f64` operations the claims depend on are modelled bit-exactly:
`f64Round` is IEEE-754 binary64 round-to-nearest-ties-to-even (with the
subnormal granularity floor; overflow never occurs at the magnitudes
these values reach), `f64Mul` and `f64Add` round the exact product and
sum, and each decimal literal of the source denotes its rounded binary64
value.  `block_reward`, whose `f64` values can leave the finite range,
is modelled over `WithTop ℚ`, with `⊤` playing the role of `+∞` (never a
NaN arises there: the only non-finite intermediates are `+0` and `+∞`,
on which `powi`, division by/of a positive constant, and `<` agree with
the `WithTop` order semantics). -/

def MAX_SUPPLY : ℚ := 21000000
def GENESIS_BLOCK_REWARD : ℚ := 50

/-- Round a rational to an integer, ties to even. -/
def rndNearestEvenInt (x : ℚ) : ℤ :=
  if x - ⌊x⌋ < 1 / 2 then ⌊x⌋
  else if 1 / 2 < x - ⌊x⌋ then ⌊x⌋ + 1
  else if ⌊x⌋ % 2 = 0 then ⌊x⌋ else ⌊x⌋ + 1

/-- Round to the nearest integer multiple of `2 ^ e`, ties to even. -/
def roundAtUlp (q : ℚ) (e : ℤ) : ℚ :=
  (rndNearestEvenInt (q / 2 ^ e) : ℚ) * 2 ^ e

/-- IEEE-754 binary64 rounding of an exact rational value: round to
nearest, ties to even, at the precision of a 53-bit significand whose
unit in the last place is `2 ^ (⌊log₂ |q|⌋ - 52)`, floored at the
subnormal granularity `2 ^ (-1074)`.  Overflow to `+∞` is not modelled;
every value this development rounds is far below the overflow
threshold. -/
def f64Round (q : ℚ) : ℚ :=
  if q = 0 then 0
  else if q < 0 then -roundAtUlp (-q) (max (Int.log 2 (-q) - 52) (-1074))
  else roundAtUlp q (max (Int.log 2 q - 52) (-1074))

/-- Binary64 multiplication: the correctly rounded exact product. -/
def f64Mul (a b : ℚ) : ℚ :=
  f64Round (a * b)

/-- Binary64 addition: the correctly rounded exact sum. -/
def f64Add (a b : ℚ) : ℚ :=
  f64Round (a + b)

/-- The binary64 value of the source literal `0.85`. -/
def PROVIDER_SHARE : ℚ := f64Round (85 / 100)

/-- The binary64 value of the source literal `0.09`. -/
def CREATOR_SHARE : ℚ := f64Round (9 / 100)

/-- The binary64 value of the source literal `0.06`. -/
def IMPROVER_SHARE : ℚ := f64Round (6 / 100)

/-- The binary64 value of the source literal `0.70`. -/
def IMPROVER_DECAY : ℚ := f64Round (70 / 100)

/-- The JS object returned by `split_fee`. -/
structure FeeSplit where
  provider : ℚ
  creator : ℚ
  improver : ℚ
  total : ℚ
deriving DecidableEq

/-- `split_fee`: each share is the binary64 product of the total with the
rounded share constant. -/
def split_fee (total_fee : ℚ) : FeeSplit :=
  { provider := f64Mul total_fee PROVIDER_SHARE,
    creator := f64Mul total_fee CREATOR_SHARE,
    improver := f64Mul total_fee IMPROVER_SHARE,
    total := total_fee }

/-- `shard_reward`. -/
def shard_reward (total_fee shard_compute_weight total_compute_weight : ℚ) : ℚ :=
  if total_compute_weight ≤ 0 then 0
  else f64Mul (f64Mul total_fee PROVIDER_SHARE)
    (f64Round (shard_compute_weight / total_compute_weight))

/-- Rust `epoch as i32`: two's-complement wrap of a `u32` value, negative
for `epoch ≥ 2^31`. -/
def u32AsI32 (n : ℕ) : ℤ :=
  if n < 2 ^ 31 then (n : ℤ) else (n : ℤ) - 2 ^ 32

/-- `2.0_f64.powi(n)`: for base 2.0 the result is the exact power of two
while it is representable, `+∞` above the binary64 range and `+0` below
it.  (`powi` has unspecified precision in general, but every intermediate
of a squaring chain on 2.0 is a power of two, so for `n ≥ 0` the result
is exact with overflow exactly above 1023; for negative `n` a reciprocal
implementation turns `+∞` into `+0` already below `-1023`, and on the
whole band `[-1074, -1024]` both readings — subnormal power of two or
`+0` — divide `50.0` to `+∞`, so the value consumed downstream is
implementation-independent.) -/
def f64Powi2 (n : ℤ) : WithTop ℚ :=
  if 1023 < n then ⊤
  else if n < -1074 then ((0 : ℚ) : WithTop ℚ)
  else (((2 : ℚ) ^ n : ℚ) : WithTop ℚ)

/-- `50.0 / p` in binary64 for the values `f64Powi2` produces (`+0`, `+∞`
or an exact power of two `2^n`): `50 / 2^n = 25·2^(1-n)` is exactly
representable whenever it is below the overflow threshold `2^1024` (its
5-bit significand never rounds), `50.0 / +0.0 = +∞`, and
`50.0 / +∞ = +0.0`. -/
def f64DivFifty : WithTop ℚ → WithTop ℚ
  | ⊤ => ((0 : ℚ) : WithTop ℚ)
  | (q : ℚ) =>
    if q = 0 then ⊤
    else if (2 : ℚ) ^ 1024 ≤ 50 / q then ⊤
    else ((50 / q : ℚ) : WithTop ℚ)

/-- `block_reward`, including the wrapping `epoch as i32` cast into
`powi`.  The final `f64` comparison `reward < 1e-8` never sees a NaN
(`reward` is `+0`, `+∞` or a positive finite value), so it is the
`WithTop ℚ` order comparison. -/
def block_reward (epoch : ℕ) : WithTop ℚ :=
  let reward := f64DivFifty (f64Powi2 (u32AsI32 epoch))
  if reward < ((1 / 100000000 : ℚ) : WithTop ℚ) then
    ((1 / 100000000 : ℚ) : WithTop ℚ)
  else reward

/-- `current_epoch` (`total_inferences` ranges over `u64` values). -/
def current_epoch (total_inferences : ℕ) (ips epoch_duration_secs : ℚ) : ℕ :=
  if ips ≤ 0 ∨ epoch_duration_secs ≤ 0 then 0
  else
    let epoch_length := f64toU64 (ips * epoch_duration_secs)
    if epoch_length = 0 then 0
    else total_inferences / epoch_length % 2 ^ 32

/-- `improver_royalty_at_depth`.  The decay power is idealized as the
exact rational power of the rounded constant (`powi` has unspecified
precision); no claim concerns this function. -/
def improver_royalty_at_depth (total_fee : ℚ) (depth : ℕ) : ℚ :=
  f64Mul (f64Mul total_fee IMPROVER_SHARE) (IMPROVER_DECAY ^ depth)

/-! ### Concrete instances of the abstract boundaries

The theorems below are stated for arbitrary `CryptoPrims` / `JsonCodec`;
the instances here are small concrete inhabitants used to evaluate the
theorems at specific inputs.  `mockJson` renders a document as a unary
string of its code under a `JDoc` encoding. -/

instance : Encodable Char :=
  Encodable.ofLeftInjection (fun c => c.toNat) (fun n => some (Char.ofNat n))
    (fun c => by simp only [Char.ofNat_toNat])

def stringEquivListChar : String ≃ List Char where
  toFun s := s.data
  invFun l := String.mk l
  left_inv _ := rfl
  right_inv _ := rfl

instance : Encodable String :=
  Encodable.ofEquiv (List Char) stringEquivListChar

def jvalEquivSum : JVal ≃ (String ⊕ ℚ ⊕ Unit) where
  toFun v :=
    match v with
    | .str s => .inl s
    | .num q => .inr (.inl q)
    | .other => .inr (.inr ())
  invFun x :=
    match x with
    | .inl s => .str s
    | .inr (.inl q) => .num q
    | .inr (.inr _) => .other
  left_inv v := by cases v <;> rfl
  right_inv x := by rcases x with s | q | u <;> rfl

instance : Encodable JVal :=
  Encodable.ofEquiv _ jvalEquivSum

def jdocEquivSum : JDoc ≃ (List (String × JVal) ⊕ Unit) where
  toFun d :=
    match d with
    | .obj fs => .inl fs
    | .nonObj => .inr ()
  invFun x :=
    match x with
    | .inl fs => .obj fs
    | .inr _ => .nonObj
  left_inv d := by cases d <;> rfl
  right_inv x := by rcases x with fs | u <;> rfl

instance : Encodable JDoc :=
  Encodable.ofEquiv _ jdocEquivSum

/-- A concrete crypto inhabitant satisfying the Ed25519/SHA-256 contract
shape (not the real algorithms; used only to instantiate theorems). -/
def mockCrypto : CryptoPrims where
  sha256 b := List.replicate 32 (b.length % 256)
  sha256_length b := by simp
  sha256_lt b x hx := by
    rw [List.eq_of_mem_replicate hx]
    exact Nat.mod_lt _ (by norm_num)
  pubkeyOf sk := List.replicate 32 (sk.length % 256)
  pubkeyOf_length sk := by simp
  pubkeyOf_lt sk x hx := by
    rw [List.eq_of_mem_replicate hx]
    exact Nat.mod_lt _ (by norm_num)
  sign sk data := List.replicate 64 ((sk.length + data.length) % 256)
  sign_length sk data := by simp
  sign_lt sk data x hx := by
    rw [List.eq_of_mem_replicate hx]
    exact Nat.mod_lt _ (by norm_num)
  pkValid _ := true
  pkValid_pubkeyOf _ := rfl
  verify _ _ _ := true
  verify_sign _ _ := rfl

/-- A concrete codec inhabitant satisfying the serde round-trip law. -/
def mockJson : JsonCodec where
  parse s := Encodable.decode s.length
  render d := String.mk (List.replicate (Encodable.encode d) 'a')
  parse_render d := by
    show Encodable.decode (String.mk (List.replicate (Encodable.encode d) 'a')).length = some d
    simp [String.length, Encodable.encodek]

/-- A concrete stand-in for the platform's `f64` `Display` rendering. -/
def mockFmt (q : ℚ) : String :=
  q.num.repr ++ "/" ++ Nat.repr q.den

/-! ### Shared lemmas -/

/-- serde's derived field decoding inverts its derived serialization. -/
theorem decode_encode_signedTransaction (st : SignedTransaction) :
    decodeSignedTransaction (encodeSignedTransaction st) = some st := by
  cases st; rfl

/-- `verify_with_public_key` accepts a genuine signature by the key's
owner. -/
theorem verify_with_public_key_sign (C : CryptoPrims) (sk data : List ℕ) :
    verify_with_public_key C (hexEncode (C.pubkeyOf sk)) data
      (hexEncode (C.sign sk data)) = some true := by
  unfold verify_with_public_key
  rw [hexDecode_hexEncode _ (C.pubkeyOf_lt sk)]
  simp only [C.pubkeyOf_length, ne_eq, not_true_eq_false, if_false, ite_false,
    array32, if_true, ite_true, C.pkValid_pubkeyOf]
  rw [hexDecode_hexEncode _ (C.sign_lt sk data)]
  simp [C.sign_length, C.verify_sign]

/-- Claim C1: for every wallet (with its invariant: verifying key and
peer id derived from the signing key), every recipient string, amount,
transaction-kind string and timestamp, verifying the envelope JSON string
produced by `sign_transaction_core` returns true (`some true`: a normal
boolean return, no panic).  The kind is an arbitrary string, covering the
four canonical kinds and any other. -/
theorem tx_sign_then_verify (C : CryptoPrims) (J : JsonCodec) (F : ℚ → String)
    (wallet : CdiWallet) (to_ : String) (amount : ℚ) (tx_type : String)
    (timestamp : ℚ) (hw : WalletWellFormed C wallet) :
    verify_transaction_core C J F
      (sign_transaction_core C J F wallet to_ amount tx_type timestamp) = some true := by
  obtain ⟨hvk, hpid⟩ := hw
  have hdecpk : hexDecode (get_public_key_hex wallet) = some wallet.verifying_key := by
    rw [get_public_key_hex]
    exact hexDecode_hexEncode _ (by rw [hvk]; exact C.pubkeyOf_lt _)
  have hfrom : hexEncode (C.sha256 wallet.verifying_key) = get_peer_id wallet := by
    rw [get_peer_id, hpid, derive_peer_id]
  simp only [sign_transaction_core, verify_transaction_core, parseSignedTransaction,
    J.parse_render, Option.some_bind, decode_encode_signedTransaction]
  simp only [hdecpk, hfrom, ne_eq, not_true_eq_false, if_false, ite_false,
    reduceIte, tx_data_of]
  rw [get_public_key_hex, hvk, sign_data]
  exact verify_with_public_key_sign C wallet.signing_key _

/-- `verify_with_public_key` always returns a boolean (helper). -/
theorem vwpk_isSome (C : CryptoPrims) (pkHex : String) (data : List ℕ)
    (sigHex : String) :
    ∃ b, verify_with_public_key C pkHex data sigHex = some b := by
  unfold verify_with_public_key
  cases hpk : hexDecode pkHex with
  | none => exact ⟨false, rfl⟩
  | some pk =>
    by_cases hl : pk.length = 32
    · simp only [hl, ne_eq, not_true_eq_false, ite_false, array32, ite_true]
      by_cases hv : C.pkValid pk
      · simp only [hv, ite_true]
        cases hsig : hexDecode sigHex with
        | none => exact ⟨false, rfl⟩
        | some sig =>
          by_cases hs : sig.length = 64
          · exact ⟨C.verify pk data sig, by simp [hs]⟩
          · exact ⟨false, by simp [hs]⟩
      · exact ⟨false, by simp [hv]⟩
    · exact ⟨false, by simp [hl]⟩

/-- Claim C7: `verify_with_public_key` is total — it returns a boolean
(`some b`) on every input, so the `try_into().unwrap()` under the length
guard never panics — and it returns `true` exactly when the public key is
valid hex of 32 bytes forming a valid verification key and the signature
is valid hex of 64 bytes (`Signature::from_slice`'s only requirement) and
the cryptographic check succeeds; so it returns `false` whenever any of
those conditions fails. -/
theorem verify_with_public_key_total_spec (C : CryptoPrims)
    (public_key_hex : String) (data : List ℕ) (signature_hex : String) :
    ∃ b, verify_with_public_key C public_key_hex data signature_hex = some b ∧
      (b = true ↔ ∃ pk, hexDecode public_key_hex = some pk ∧ pk.length = 32 ∧
        C.pkValid pk = true ∧ ∃ sig, hexDecode signature_hex = some sig ∧
          sig.length = 64 ∧ C.verify pk data sig = true) := by
  unfold verify_with_public_key
  cases hpk : hexDecode public_key_hex with
  | none => exact ⟨false, rfl, by simp⟩
  | some pk =>
    by_cases hl : pk.length = 32
    · simp only [hl, ne_eq, not_true_eq_false, ite_false, array32, ite_true,
        Option.some.injEq]
      by_cases hv : C.pkValid pk
      · simp only [hv, ite_true]
        cases hsig : hexDecode signature_hex with
        | none => exact ⟨false, rfl, by simp⟩
        | some sig =>
          by_cases hs : sig.length = 64
          · refine ⟨C.verify pk data sig, by simp [hs], ?_⟩
            simp [hs, hl, hv]
          · refine ⟨false, by simp [hs], ?_⟩
            simp [hs]
      · refine ⟨false, by simp [hv], ?_⟩
        simp [hv]
    · refine ⟨false, by simp [hl], ?_⟩
      simp [hl]

/-- Claim C2: `verify_transaction_core` never raises — it returns a
boolean on every input string, non-JSON garbage included — and it returns
`true` exactly when the string parses as a structurally valid envelope
whose `from` field equals hex(SHA-256(decoded embedded public key)) and
whose embedded signature validates against the embedded public key over
the canonical bytes recomputed from the envelope's own fields; a failure
of any step (parse, identity binding, signature) yields `false`. -/
theorem verify_transaction_core_total_spec (C : CryptoPrims) (J : JsonCodec)
    (F : ℚ → String) (s : String) :
    ∃ b, verify_transaction_core C J F s = some b ∧
      (b = true ↔ ∃ st pk_bytes,
        parseSignedTransaction J s = some st ∧
        hexDecode st.pub_key = some pk_bytes ∧
        hexEncode (C.sha256 pk_bytes) = st.from_ ∧
        verify_with_public_key C st.pub_key
          (signing_bytes F (tx_data_of st)) st.signature = some true) := by
  cases hp : parseSignedTransaction J s with
  | none =>
    refine ⟨false, by simp [verify_transaction_core, hp], ?_⟩
    simp [hp]
  | some st =>
    cases hd : hexDecode st.pub_key with
    | none =>
      refine ⟨false, by simp [verify_transaction_core, hp, hd], ?_⟩
      simp only [Bool.false_eq_true, false_iff]
      rintro ⟨st', pk', hp', hd', -, -⟩
      injection hp' with h1
      subst h1
      rw [hd] at hd'
      cases hd'
    | some pk =>
      by_cases hid : hexEncode (C.sha256 pk) = st.from_
      · obtain ⟨b, hb⟩ :=
          vwpk_isSome C st.pub_key (signing_bytes F (tx_data_of st)) st.signature
        refine ⟨b, ?_, ?_, ?_⟩
        · simp only [verify_transaction_core, hp, hd, hid, ne_eq,
            not_true_eq_false, ite_false]
          exact hb
        · intro hbt
          exact ⟨st, pk, rfl, hd, hid, by rw [hb, hbt]⟩
        · rintro ⟨st', pk', hp', hd', hid', hv'⟩
          injection hp' with h1
          subst h1
          rw [hb] at hv'
          injection hv' with h2
      · refine ⟨false, ?_, ?_⟩
        · simp [verify_transaction_core, hp, hd, hid]
        · simp only [Bool.false_eq_true, false_iff]
          rintro ⟨st', pk', hp', hd', hid', -⟩
          injection hp' with h1
          subst h1
          rw [hd] at hd'
          injection hd' with h2
          subst h2
          exact hid hid'

/-- Claim C4 as amended: `current_epoch` returns 0 when the rate or the
duration is non-positive; otherwise, with
`epochLength = min ⌊rate * duration⌋ (2^64 - 1)` (the saturating
`f64 as u64` cast), it returns 0 when `epochLength` is 0 and otherwise
`⌊totalInferences / epochLength⌋` reduced modulo `2^32` (the
`u64 as u32` cast).  The original claim omits the final `mod 2^32`. -/
theorem current_epoch_cast_semantics (total_inferences : ℕ)
    (ips epoch_duration_secs : ℚ) :
    current_epoch total_inferences ips epoch_duration_secs =
      if ips ≤ 0 ∨ epoch_duration_secs ≤ 0 then 0
      else if min (Int.toNat ⌊ips * epoch_duration_secs⌋) (2 ^ 64 - 1) = 0 then 0
      else total_inferences /
        min (Int.toNat ⌊ips * epoch_duration_secs⌋) (2 ^ 64 - 1) % 2 ^ 32 := by
  by_cases hg : ips ≤ 0 ∨ epoch_duration_secs ≤ 0
  · simp [current_epoch, hg]
  · have hpos : 0 < ips * epoch_duration_secs := by
      push_neg at hg
      exact mul_pos hg.1 hg.2
    simp only [current_epoch, f64toU64, hg, ite_false, if_false,
      if_neg (not_lt.mpr hpos.le)]

/-- C4 counterexample: at `totalInferences = 2^32`, `rate = duration = 1`,
the epoch length is 1 and the true quotient is `2^32`, but the function
returns the quotient truncated to `u32`, i.e. 0. -/
theorem current_epoch_truncation_counterexample :
    current_epoch (2 ^ 32) 1 1 = 0 ∧
    (2 ^ 32 : ℕ) / Int.toNat ⌊(1 : ℚ) * 1⌋ = 2 ^ 32 := by
  constructor
  · simp only [current_epoch, f64toU64]
    norm_num
  · norm_num

/-- Characterization of `Int.log 2` by the enclosing powers of two. -/
theorem int_log2_eq {r : ℚ} {z : ℤ} (hr : 0 < r) (h1 : (2 : ℚ) ^ z ≤ r)
    (h2 : r < (2 : ℚ) ^ (z + 1)) : Int.log 2 r = z := by
  refine le_antisymm ?_ ((Int.zpow_le_iff_le_log (by norm_num) hr).mp h1)
  have := (Int.lt_zpow_iff_log_lt (b := 2) (by norm_num) hr).mp h2
  omega

/-- Evaluation rule for `f64Round` when the mantissa rounds down. -/
theorem f64Round_eq_down {q : ℚ} {z n : ℤ} (hq : 0 < q)
    (h1 : (2 : ℚ) ^ z ≤ q) (h2 : q < (2 : ℚ) ^ (z + 1)) (hz : (-1074 : ℤ) ≤ z - 52)
    (hn : ⌊q / 2 ^ (z - 52)⌋ = n) (hf : q / 2 ^ (z - 52) - (n : ℚ) < 1 / 2) :
    f64Round q = (n : ℚ) * 2 ^ (z - 52) := by
  unfold f64Round roundAtUlp rndNearestEvenInt
  rw [if_neg hq.ne', if_neg (not_lt.mpr hq.le), int_log2_eq hq h1 h2, max_eq_left hz,
    hn, if_pos hf]

/-- Evaluation rule for `f64Round` when the mantissa rounds up. -/
theorem f64Round_eq_up {q : ℚ} {z n : ℤ} (hq : 0 < q)
    (h1 : (2 : ℚ) ^ z ≤ q) (h2 : q < (2 : ℚ) ^ (z + 1)) (hz : (-1074 : ℤ) ≤ z - 52)
    (hn : ⌊q / 2 ^ (z - 52)⌋ = n) (hf : 1 / 2 < q / 2 ^ (z - 52) - (n : ℚ)) :
    f64Round q = ((n : ℚ) + 1) * 2 ^ (z - 52) := by
  unfold f64Round roundAtUlp rndNearestEvenInt
  rw [if_neg hq.ne', if_neg (not_lt.mpr hq.le), int_log2_eq hq h1 h2, max_eq_left hz,
    hn, if_neg (not_lt.mpr hf.le), if_pos hf]
  push_cast
  ring

/-- The binary64 value of `0.85`, exactly. -/
theorem PROVIDER_SHARE_val : PROVIDER_SHARE = 7656119366529843 / 2 ^ 53 := by
  have h := f64Round_eq_down (q := 85 / 100) (z := -1) (n := 7656119366529843)
    (by norm_num) (by norm_num) (by norm_num) (by norm_num) (by norm_num) (by norm_num)
  rw [PROVIDER_SHARE, h]
  norm_num

/-- The binary64 value of `0.09`, exactly. -/
theorem CREATOR_SHARE_val : CREATOR_SHARE = 6485183463413514 / 2 ^ 56 := by
  have h := f64Round_eq_down (q := 9 / 100) (z := -4) (n := 6485183463413514)
    (by norm_num) (by norm_num) (by norm_num) (by norm_num) (by norm_num) (by norm_num)
  rw [CREATOR_SHARE, h]
  norm_num

/-- The binary64 value of `0.06`, exactly. -/
theorem IMPROVER_SHARE_val : IMPROVER_SHARE = 8646911284551352 / 2 ^ 57 := by
  have h := f64Round_eq_down (q := 6 / 100) (z := -5) (n := 8646911284551352)
    (by norm_num) (by norm_num) (by norm_num) (by norm_num) (by norm_num) (by norm_num)
  rw [IMPROVER_SHARE, h]
  norm_num

/-- At `totalFee = 100` the provider product rounds to exactly 85. -/
theorem f64Mul_hundred_provider : f64Mul 100 PROVIDER_SHARE = 85 := by
  rw [f64Mul, PROVIDER_SHARE_val]
  have h := f64Round_eq_up (q := 100 * (7656119366529843 / 2 ^ 53)) (z := 6)
    (n := 5981343255101439)
    (by norm_num) (by norm_num) (by norm_num) (by norm_num) (by norm_num) (by norm_num)
  rw [h]
  norm_num

/-- At `totalFee = 100` the creator product rounds to exactly 9. -/
theorem f64Mul_hundred_creator : f64Mul 100 CREATOR_SHARE = 9 := by
  rw [f64Mul, CREATOR_SHARE_val]
  have h := f64Round_eq_up (q := 100 * (6485183463413514 / 2 ^ 56)) (z := 3)
    (n := 5066549580791807)
    (by norm_num) (by norm_num) (by norm_num) (by norm_num) (by norm_num) (by norm_num)
  rw [h]
  norm_num

/-- At `totalFee = 100` the improver product rounds to exactly 6. -/
theorem f64Mul_hundred_improver : f64Mul 100 IMPROVER_SHARE = 6 := by
  rw [f64Mul, IMPROVER_SHARE_val]
  have h := f64Round_eq_up (q := 100 * (8646911284551352 / 2 ^ 57)) (z := 2)
    (n := 6755399441055743)
    (by norm_num) (by norm_num) (by norm_num) (by norm_num) (by norm_num) (by norm_num)
  rw [h]
  norm_num

/-- Claim C8 as amended: each returned share is the binary64 product of
the total with the rounded constant (`0.85`, `0.09`, `0.06` denote their
binary64 values, pinned exactly below), the original total is returned,
and — because the three rounded constants sum to `1 - 2^(-55)`, not 1 —
the identity `provider + creator + improver = totalFee` holds only up to
floating-point rounding: it does hold at particular values such as
`totalFee = 100`, where all three products round to whole numbers, but
not in general (see the counterexample at `totalFee = 0.3`). -/
theorem split_fee_spec (total_fee : ℚ) :
    (split_fee total_fee).provider = f64Mul total_fee PROVIDER_SHARE ∧
    (split_fee total_fee).creator = f64Mul total_fee CREATOR_SHARE ∧
    (split_fee total_fee).improver = f64Mul total_fee IMPROVER_SHARE ∧
    (split_fee total_fee).total = total_fee ∧
    PROVIDER_SHARE = 7656119366529843 / 2 ^ 53 ∧
    CREATOR_SHARE = 6485183463413514 / 2 ^ 56 ∧
    IMPROVER_SHARE = 8646911284551352 / 2 ^ 57 ∧
    PROVIDER_SHARE + CREATOR_SHARE + IMPROVER_SHARE = 1 - 1 / 2 ^ 55 ∧
    (split_fee 100).provider + (split_fee 100).creator +
      (split_fee 100).improver = 100 := by
  refine ⟨rfl, rfl, rfl, rfl, PROVIDER_SHARE_val, CREATOR_SHARE_val,
    IMPROVER_SHARE_val, ?_, ?_⟩
  · rw [PROVIDER_SHARE_val, CREATOR_SHARE_val, IMPROVER_SHARE_val]
    norm_num
  · show f64Mul 100 PROVIDER_SHARE + f64Mul 100 CREATOR_SHARE +
      f64Mul 100 IMPROVER_SHARE = 100
    rw [f64Mul_hundred_provider, f64Mul_hundred_creator, f64Mul_hundred_improver]
    norm_num

/-- Claim C8 counterexample: at `totalFee` = the binary64 value of `0.3`,
the three returned shares sum to `totalFee + 2^(-56)` exactly — not
`totalFee` — and their binary64 addition gives the double
`0.30000000000000004`, also not `totalFee`. -/
theorem split_fee_rounding_counterexample :
    (split_fee (f64Round (3 / 10))).provider +
        (split_fee (f64Round (3 / 10))).creator +
        (split_fee (f64Round (3 / 10))).improver ≠ f64Round (3 / 10) ∧
    f64Add (f64Add (split_fee (f64Round (3 / 10))).provider
        (split_fee (f64Round (3 / 10))).creator)
      (split_fee (f64Round (3 / 10))).improver ≠ f64Round (3 / 10) := by
  have hT : f64Round (3 / 10) = 5404319552844595 / 2 ^ 54 := by
    have h := f64Round_eq_down (q := 3 / 10) (z := -2) (n := 5404319552844595)
      (by norm_num) (by norm_num) (by norm_num) (by norm_num) (by norm_num) (by norm_num)
    rw [h]
    norm_num
  have hp : f64Mul (5404319552844595 / 2 ^ 54) PROVIDER_SHARE =
      2296835809958953 / 2 ^ 53 := by
    rw [f64Mul, PROVIDER_SHARE_val]
    have h := f64Round_eq_up
      (q := 5404319552844595 / 2 ^ 54 * (7656119366529843 / 2 ^ 53)) (z := -2)
      (n := 4593671619917905)
      (by norm_num) (by norm_num) (by norm_num) (by norm_num) (by norm_num) (by norm_num)
    rw [h]
    norm_num
  have hc : f64Mul (5404319552844595 / 2 ^ 54) CREATOR_SHARE =
      7782220156096217 / 2 ^ 58 := by
    rw [f64Mul, CREATOR_SHARE_val]
    have h := f64Round_eq_up
      (q := 5404319552844595 / 2 ^ 54 * (6485183463413514 / 2 ^ 56)) (z := -6)
      (n := 7782220156096216)
      (by norm_num) (by norm_num) (by norm_num) (by norm_num) (by norm_num) (by norm_num)
    rw [h]
    norm_num
  have hi : f64Mul (5404319552844595 / 2 ^ 54) IMPROVER_SHARE =
      5188146770730811 / 2 ^ 58 := by
    rw [f64Mul, IMPROVER_SHARE_val]
    have h := f64Round_eq_down
      (q := 5404319552844595 / 2 ^ 54 * (8646911284551352 / 2 ^ 57)) (z := -6)
      (n := 5188146770730811)
      (by norm_num) (by norm_num) (by norm_num) (by norm_num) (by norm_num) (by norm_num)
    rw [h]
    norm_num
  have hpc : f64Add (2296835809958953 / 2 ^ 53) (7782220156096217 / 2 ^ 58) =
      5080060379673920 / 2 ^ 54 := by
    rw [f64Add]
    have h := f64Round_eq_up
      (q := 2296835809958953 / 2 ^ 53 + 7782220156096217 / 2 ^ 58) (z := -2)
      (n := 5080060379673919)
      (by norm_num) (by norm_num) (by norm_num) (by norm_num) (by norm_num) (by norm_num)
    rw [h]
    norm_num
  have hpci : f64Add (5080060379673920 / 2 ^ 54) (5188146770730811 / 2 ^ 58) =
      5404319552844596 / 2 ^ 54 := by
    rw [f64Add]
    have h := f64Round_eq_up
      (q := 5080060379673920 / 2 ^ 54 + 5188146770730811 / 2 ^ 58) (z := -2)
      (n := 5404319552844595)
      (by norm_num) (by norm_num) (by norm_num) (by norm_num) (by norm_num) (by norm_num)
    rw [h]
    norm_num
  constructor
  · show f64Mul (f64Round (3 / 10)) PROVIDER_SHARE +
        f64Mul (f64Round (3 / 10)) CREATOR_SHARE +
        f64Mul (f64Round (3 / 10)) IMPROVER_SHARE ≠ f64Round (3 / 10)
    rw [hT, hp, hc, hi]
    norm_num
  · show f64Add (f64Add (f64Mul (f64Round (3 / 10)) PROVIDER_SHARE)
        (f64Mul (f64Round (3 / 10)) CREATOR_SHARE))
        (f64Mul (f64Round (3 / 10)) IMPROVER_SHARE) ≠ f64Round (3 / 10)
    rw [hT, hp, hc, hi, hpc, hpci]
    norm_num

/-- Evaluation of `f64DivFifty` on a finite value. -/
theorem f64DivFifty_coe (q : ℚ) :
    f64DivFifty ((q : ℚ) : WithTop ℚ) =
      if q = 0 then ⊤
      else if (2 : ℚ) ^ 1024 ≤ 50 / q then ⊤
      else ((50 / q : ℚ) : WithTop ℚ) :=
  rfl

/-- Claim C3 as amended: for every epoch below `2^31` — where the
source's `epoch as i32` cast does not wrap — `block_reward` equals
`max (50 / 2 ^ epoch) 1e-8`, a finite positive value; the original
claim's range "every 32-bit unsigned epoch" fails for `epoch ≥ 2^31`,
where the cast wraps negative and the reward is huge or `+∞` instead of
the floor (see the counterexample). -/
theorem block_reward_halving_floored (epoch : ℕ) (h : epoch < 2 ^ 31) :
    block_reward epoch =
      ((max ((50 : ℚ) / 2 ^ epoch) (1 / 100000000) : ℚ) : WithTop ℚ) ∧
    ((0 : ℚ) : WithTop ℚ) < block_reward epoch := by
  have hn : u32AsI32 epoch = (epoch : ℤ) := if_pos h
  by_cases hsmall : epoch ≤ 1023
  · have hp2 : f64Powi2 ((epoch : ℕ) : ℤ) = ((2 ^ epoch : ℚ) : WithTop ℚ) := by
      unfold f64Powi2
      rw [if_neg (by exact_mod_cast not_lt.mpr hsmall),
        if_neg (by omega), zpow_natCast]
    have hq : (2 ^ epoch : ℚ) ≠ 0 := by positivity
    have hone : (1 : ℚ) ≤ 2 ^ epoch := one_le_pow₀ (by norm_num)
    have hof : ¬ ((2 : ℚ) ^ 1024 ≤ 50 / 2 ^ epoch) := by
      have h50 : (50 : ℚ) / 2 ^ epoch ≤ 50 := div_le_self (by norm_num) hone
      push_neg
      calc (50 : ℚ) / 2 ^ epoch ≤ 50 := h50
        _ < 2 ^ 1024 := by norm_num
    have hdiv : f64DivFifty ((2 ^ epoch : ℚ) : WithTop ℚ) =
        ((50 / 2 ^ epoch : ℚ) : WithTop ℚ) := by
      rw [f64DivFifty_coe, if_neg hq, if_neg hof]
    unfold block_reward
    rw [hn, hp2, hdiv]
    have hpos : (0 : ℚ) < 50 / 2 ^ epoch := by positivity
    by_cases hlt : (50 : ℚ) / 2 ^ epoch < 1 / 100000000
    · rw [if_pos (WithTop.coe_lt_coe.mpr hlt)]
      refine ⟨?_, WithTop.coe_lt_coe.mpr (by norm_num)⟩
      rw [max_eq_right hlt.le]
    · rw [if_neg (fun hc => hlt (WithTop.coe_lt_coe.mp hc))]
      refine ⟨?_, WithTop.coe_lt_coe.mpr hpos⟩
      rw [max_eq_left (not_lt.mp hlt)]
  · have hbig : (1023 : ℤ) < ((epoch : ℕ) : ℤ) := by exact_mod_cast by omega
    have hp2 : f64Powi2 ((epoch : ℕ) : ℤ) = ⊤ := by
      unfold f64Powi2
      rw [if_pos hbig]
    unfold block_reward
    rw [hn, hp2, show f64DivFifty ⊤ = ((0 : ℚ) : WithTop ℚ) from rfl,
      if_pos (WithTop.coe_lt_coe.mpr (by norm_num))]
    have hmax : max ((50 : ℚ) / 2 ^ epoch) (1 / 100000000) = 1 / 100000000 := by
      apply max_eq_right
      rw [div_le_iff₀ (by positivity)]
      have hpow : (2 : ℚ) ^ 1024 ≤ 2 ^ epoch :=
        pow_le_pow_right₀ (by norm_num) (by omega)
      have hstep : (50 : ℚ) ≤ 1 / 100000000 * 2 ^ 1024 := by norm_num
      have := mul_le_mul_of_nonneg_left hpow (by norm_num : (0 : ℚ) ≤ 1 / 100000000)
      linarith
    rw [hmax]
    exact ⟨rfl, WithTop.coe_lt_coe.mpr (by norm_num)⟩

/-- Claim C3 counterexample: at `epoch = 2^32 - 1` (`u32::MAX`) the
`epoch as i32` cast wraps to `-1`, `powi` yields `0.5`, and the function
returns `100`, while `max (50 / 2 ^ epoch) 1e-8` is below 100 (it equals
the floor `1e-8`). -/
theorem block_reward_wrap_counterexample :
    block_reward (2 ^ 32 - 1) = ((100 : ℚ) : WithTop ℚ) ∧
    max ((50 : ℚ) / 2 ^ (2 ^ 32 - 1)) (1 / 100000000) < 100 := by
  constructor
  · have hn : u32AsI32 (2 ^ 32 - 1) = -1 := by
      unfold u32AsI32
      norm_num
    have hp2 : f64Powi2 (-1) = ((1 / 2 : ℚ) : WithTop ℚ) := by
      unfold f64Powi2
      norm_num
    have hdiv : f64DivFifty ((1 / 2 : ℚ) : WithTop ℚ) = ((100 : ℚ) : WithTop ℚ) := by
      rw [f64DivFifty_coe]
      norm_num
    unfold block_reward
    have hnotlt : ¬ (((100 : ℚ) : WithTop ℚ) < ((1 / 100000000 : ℚ) : WithTop ℚ)) := by
      rw [WithTop.coe_lt_coe]
      norm_num
    rw [hn, hp2, hdiv, if_neg hnotlt]
  · have hone : (1 : ℚ) ≤ 2 ^ (2 ^ 32 - 1) := one_le_pow₀ (by norm_num)
    have h1 : (50 : ℚ) / 2 ^ (2 ^ 32 - 1) ≤ 50 := div_le_self (by norm_num) hone
    exact lt_of_le_of_lt (max_le h1 (by norm_num)) (by norm_num)

/-- Witness for the amended C3 at `epoch = 100`. -/
theorem block_reward_halving_floored_witness :
    (100 : ℕ) < 2 ^ 31 ∧
    block_reward 100 =
      ((max ((50 : ℚ) / 2 ^ 100) (1 / 100000000) : ℚ) : WithTop ℚ) :=
  ⟨by norm_num, (block_reward_halving_floored 100 (by norm_num)).1⟩

/-- The `f64 as u64` cast only depends on the floor of its argument. -/
theorem f64toU64_congr {q₁ q₂ : ℚ} (h : ⌊q₁⌋ = ⌊q₂⌋) :
    f64toU64 q₁ = f64toU64 q₂ := by
  have k : ∀ q : ℚ, q < 0 ↔ ⌊q⌋ < 0 := by
    intro q
    rw [Int.floor_lt]
    norm_num
  have k12 : q₁ < 0 ↔ q₂ < 0 := by rw [k q₁, k q₂, h]
  unfold f64toU64
  rw [h]
  by_cases h2 : q₂ < 0
  · rw [if_pos (k12.mpr h2), if_pos h2]
  · rw [if_neg (fun hc => h2 (k12.mp hc)), if_neg h2]

/-- Claim C9: two transaction-data values equal in sender, recipient,
amount and kind whose timestamps have the same integer part but differ in
the fractional part have identical canonical signing bytes, hence
identical transaction identifiers, and a signature verifies over one
exactly as over the other. -/
theorem signing_bytes_timestamp_fraction_irrelevant (C : CryptoPrims)
    (F : ℚ → String) (t₁ t₂ : TransactionData)
    (hf : t₁.from_ = t₂.from_) (ht : t₁.to_ = t₂.to_)
    (ha : t₁.amount = t₂.amount) (hk : t₁.tx_type = t₂.tx_type)
    (hts : ⌊t₁.timestamp⌋ = ⌊t₂.timestamp⌋) (_hne : t₁.timestamp ≠ t₂.timestamp) :
    signing_bytes F t₁ = signing_bytes F t₂ ∧
    tx_id C F t₁ = tx_id C F t₂ ∧
    ∀ pkHex sigHex,
      verify_with_public_key C pkHex (signing_bytes F t₁) sigHex =
        verify_with_public_key C pkHex (signing_bytes F t₂) sigHex := by
  have hb : signing_bytes F t₁ = signing_bytes F t₂ := by
    unfold signing_bytes
    rw [hf, ht, ha, hk, f64toU64_congr hts]
  exact ⟨hb, by unfold tx_id; rw [hb], fun pkHex sigHex => by rw [hb]⟩

/-- Claim C5: any two successfully-parsed wallet documents sharing a
private-key field that decodes to 32 bytes import to the same wallet,
whose public key is derived from the private key and whose peer id is
hex(SHA-256(derived public key)); the documents' own `peer_id` (and
`public_key`) fields — which may mismatch — are never used. -/
theorem from_json_str_derives_from_private_key (C : CryptoPrims) (J : JsonCodec)
    (s₁ s₂ : String) (wd₁ wd₂ : WalletData) (priv : List ℕ)
    (h₁ : parseWalletData J s₁ = some wd₁)
    (h₂ : parseWalletData J s₂ = some wd₂)
    (hk : wd₁.private_key = wd₂.private_key)
    (hd : hexDecode wd₁.private_key = some priv)
    (hl : priv.length = 32) :
    ∃ w, from_json_str C J s₁ = .ok w ∧ from_json_str C J s₂ = .ok w ∧
      w.signing_key = priv ∧
      w.verifying_key = C.pubkeyOf priv ∧
      w.peer_id = hexEncode (C.sha256 (C.pubkeyOf priv)) := by
  refine ⟨⟨priv, C.pubkeyOf priv, derive_peer_id C (C.pubkeyOf priv)⟩, ?_, ?_,
    rfl, rfl, rfl⟩
  · simp [from_json_str, h₁, hd, hl]
  · simp [from_json_str, h₂, ← hk, hd, hl]

/-- Claim C6: `from_json_str` fails with an explicit error value (it is a
total function into `Except`, never a raise) exactly when the JSON does
not parse to a structurally valid wallet document, or the private-key
field is not valid hex, or the decoded private key is not 32 bytes. -/
theorem from_json_str_error_iff (C : CryptoPrims) (J : JsonCodec) (s : String) :
    (∃ msg, from_json_str C J s = .error msg) ↔
      parseWalletData J s = none ∨
      ∃ wd, parseWalletData J s = some wd ∧
        (hexDecode wd.private_key = none ∨
         ∃ bs, hexDecode wd.private_key = some bs ∧ bs.length ≠ 32) := by
  cases hp : parseWalletData J s with
  | none => simp [from_json_str, hp]
  | some wd =>
    cases hd : hexDecode wd.private_key with
    | none => simp [from_json_str, hp, hd]
    | some bs =>
      by_cases hl : bs.length = 32
      · simp [from_json_str, hp, hd, hl]
      · simp [from_json_str, hp, hd, hl]

/-- Claim C10: a wallet document containing only the `private_key` field
fails to import with the structural-JSON error, because serde's derived
decoder requires all three fields to be present. -/
theorem from_json_str_requires_all_fields (C : CryptoPrims) (J : JsonCodec)
    (s p : String)
    (h : J.parse s = some (JDoc.obj [("private_key", JVal.str p)])) :
    from_json_str C J s = .error "Invalid wallet JSON" := by
  have hp : parseWalletData J s = none := by
    rw [parseWalletData, h]
    rfl
  simp [from_json_str, hp]

/-! ### Concrete inputs for the theorems above -/

/-- A concrete wallet over `mockCrypto`, as `generate` would build it. -/
def wallet₀ : CdiWallet :=
  ⟨List.replicate 32 0, mockCrypto.pubkeyOf (List.replicate 32 0),
    derive_peer_id mockCrypto (mockCrypto.pubkeyOf (List.replicate 32 0))⟩

/-- Hex of a concrete 32-byte private key. -/
def privHex₀ : String :=
  hexEncode (List.replicate 32 0)

/-- A wallet document whose `peer_id` field is the given string. -/
def wdoc (pid : String) : JDoc :=
  .obj [("public_key", .str "aa"), ("private_key", .str privHex₀),
        ("peer_id", .str pid)]

/-- Witness for C1 at a concrete wallet and transaction. -/
theorem tx_sign_then_verify_witness :
    WalletWellFormed mockCrypto wallet₀ ∧
    verify_transaction_core mockCrypto mockJson mockFmt
      (sign_transaction_core mockCrypto mockJson mockFmt wallet₀ "bob" 1
        "transfer" 1700000000000) = some true :=
  ⟨⟨rfl, rfl⟩, tx_sign_then_verify mockCrypto mockJson mockFmt wallet₀ "bob" 1
    "transfer" 1700000000000 ⟨rfl, rfl⟩⟩

/-- Witness for C5: two concrete documents differing in their `peer_id`
field import to the same recomputed wallet. -/
theorem from_json_str_derives_from_private_key_witness :
    ∃ w, from_json_str mockCrypto mockJson (mockJson.render (wdoc "x")) = .ok w ∧
      from_json_str mockCrypto mockJson (mockJson.render (wdoc "mismatched")) = .ok w ∧
      w.signing_key = List.replicate 32 0 ∧
      w.verifying_key = mockCrypto.pubkeyOf (List.replicate 32 0) ∧
      w.peer_id = hexEncode (mockCrypto.sha256
        (mockCrypto.pubkeyOf (List.replicate 32 0))) :=
  from_json_str_derives_from_private_key mockCrypto mockJson _ _
    ⟨"aa", privHex₀, "x"⟩ ⟨"aa", privHex₀, "mismatched"⟩ (List.replicate 32 0)
    (by rw [parseWalletData, mockJson.parse_render]; rfl)
    (by rw [parseWalletData, mockJson.parse_render]; rfl)
    rfl
    (hexDecode_hexEncode _ (fun b hb => by
      rw [List.eq_of_mem_replicate hb]; norm_num))
    (by simp)

/-- Witness for C9 at timestamps `0.5` and `0.25`. -/
theorem signing_bytes_timestamp_fraction_irrelevant_witness :
    (⌊(1/2 : ℚ)⌋ = ⌊(1/4 : ℚ)⌋) ∧ ((1/2 : ℚ) ≠ 1/4) ∧
    signing_bytes mockFmt ⟨"alice", "bob", 1, "transfer", 1/2⟩ =
      signing_bytes mockFmt ⟨"alice", "bob", 1, "transfer", 1/4⟩ :=
  ⟨by norm_num, by norm_num,
    (signing_bytes_timestamp_fraction_irrelevant mockCrypto mockFmt
      ⟨"alice", "bob", 1, "transfer", 1/2⟩ ⟨"alice", "bob", 1, "transfer", 1/4⟩
      rfl rfl rfl rfl (by norm_num) (by norm_num)).1⟩

/-- Witness for C10 at a concrete single-field document. -/
theorem from_json_str_requires_all_fields_witness :
    from_json_str mockCrypto mockJson
      (mockJson.render (JDoc.obj [("private_key", JVal.str "00")])) =
      .error "Invalid wallet JSON" :=
  from_json_str_requires_all_fields mockCrypto mockJson _ "00"
    (mockJson.parse_render _)
